import Mathlib

/-!
# myshell: process execution and job control

A shallow embedding of `internal/executor/executor.go` and of the interrupt
listener of `internal/repl/repl.go`.

* Package-level variables (`currentFgPgid`, `jobs`, `nextJobID`) are the fields
  of `Shell`, passed explicitly.
* Operating-system calls (`os.Open`, `os.Pipe`, `cmd.Start`, `cmd.Wait`,
  `unix.Getpgid`, ...) are answered by an `OS` record, one answer per stage and
  kind of call; what the shell does to the outside world is recorded as a list
  of `Event`s in program order.
* `defer f.Close()` is a stack of handles closed, last registered first, when
  the function returns or panics.
* Go `int` is 64 bits wide: `nextJobID++` wraps (`wrapInt`).
-/

namespace MyShell

/-! ## Job table -/

/-- The Go struct `Job`; `State` is the string "Running" or "Done". -/
structure Job where
  ID : Int
  PGID : Int
  Cmd : String
  State : String
deriving DecidableEq

/-- Package-level variables of the executor. -/
structure Shell where
  currentFgPgid : Int
  jobs : List Job
  nextJobID : Int
deriving DecidableEq

/-- Initial values of the package-level variables. -/
def Shell.init : Shell :=
  { currentFgPgid := -1, jobs := [], nextJobID := 1 }

/-- Two's complement wrap-around of a 64-bit Go `int`. -/
def wrapInt (x : Int) : Int :=
  (x + 9223372036854775808) % 18446744073709551616 - 9223372036854775808

/-- Largest value of a Go `int`, which also bounds the length of a slice. -/
def maxInt : Int := 9223372036854775807

/-- The function `addJob`: append a Running job and increment `nextJobID`. -/
def addJob (s : Shell) (pgid : Int) (cmd : String) : Shell :=
  { s with
    jobs := s.jobs ++ [{ ID := s.nextJobID, PGID := pgid, Cmd := cmd, State := "Running" }]
    nextJobID := wrapInt (s.nextJobID + 1) }

/-- The loop of `markJobDone`: the first job whose PGID matches is set to
"Done" and the loop breaks. -/
def markJobDoneLoop (pgid : Int) : List Job → List Job
  | [] => []
  | j :: rest =>
    if j.PGID = pgid then { j with State := "Done" } :: rest
    else j :: markJobDoneLoop pgid rest

/-- The function `markJobDone`. -/
def markJobDone (s : Shell) (pgid : Int) : Shell :=
  { s with jobs := markJobDoneLoop pgid s.jobs }

/-- The function `GetJobs`: a copy of the table; the table itself is untouched. -/
def GetJobs (s : Shell) : List Job := s.jobs

/-- The function `setCurrentFgPgid`. -/
def setCurrentFgPgid (s : Shell) (pgid : Int) : Shell :=
  { s with currentFgPgid := pgid }

/-- The function `GetCurrentFgPgid`. -/
def GetCurrentFgPgid (s : Shell) : Int := s.currentFgPgid

/-- One call on the job table. -/
inductive JobOp where
  | add (pgid : Int) (cmd : String)
  | markDone (pgid : Int)
  | get
deriving DecidableEq

/-- The table after one call. -/
def JobOp.apply (op : JobOp) (s : Shell) : Shell :=
  match op with
  | .add pgid cmd => addJob s pgid cmd
  | .markDone pgid => markJobDone s pgid
  | .get => s

/-- The table after a sequence of calls, first call first. -/
def runOps (ops : List JobOp) (s : Shell) : Shell :=
  ops.foldl (fun acc op => op.apply acc) s

/-- States reached from the initial one by `addJob` and `markJobDone` calls. -/
inductive Reachable : Shell → Prop where
  | init : Reachable Shell.init
  | add {s : Shell} (pgid : Int) (cmd : String) : Reachable s → Reachable (addJob s pgid cmd)
  | markDone {s : Shell} (pgid : Int) : Reachable s → Reachable (markJobDone s pgid)

/-! ## Redirection parsing -/

/-- The four results of `parseRedirection`. -/
structure Redirection where
  clean : List String
  inFile : String
  outFile : String
  appendMode : Bool
deriving DecidableEq

/-- The loop of `parseRedirection` on the tokens from index `i` on (the list
argument is `tokens[i:]`, so `i+1 < len(tokens)` holds exactly when a second
token is left). An operator in last position is dropped and sets nothing. -/
def parseRedirectionLoop : List String → Redirection → Redirection
  | [], r => r
  | t :: rest, r =>
    if t = ">" then
      match rest with
      | next :: rest2 =>
        parseRedirectionLoop rest2 { r with outFile := next, appendMode := false }
      | [] => r
    else if t = ">>" then
      match rest with
      | next :: rest2 =>
        parseRedirectionLoop rest2 { r with outFile := next, appendMode := true }
      | [] => r
    else if t = "<" then
      match rest with
      | next :: rest2 => parseRedirectionLoop rest2 { r with inFile := next }
      | [] => r
    else parseRedirectionLoop rest { r with clean := r.clean ++ [t] }

/-- The function `parseRedirection`; the named results start at their zero values. -/
def parseRedirection (tokens : List String) : Redirection :=
  parseRedirectionLoop tokens { clean := [], inFile := "", outFile := "", appendMode := false }

/-- A token that is one of the operators `<`, `>`, `>>`. -/
def isRedirOp (t : String) : Bool := t = "<" || t = ">" || t = ">>"

/-- The clean list as the specification words it: scanning left to right, each
operator token and the token that follows it are removed, the rest is kept in
order. -/
def removeRedirections : List String → List String
  | [] => []
  | [t] => if isRedirOp t then [] else [t]
  | t :: next :: rest =>
    if isRedirOp t then removeRedirections rest
    else t :: removeRedirections (next :: rest)

/-! ## Operating-system interface -/

/-- A file the shell holds open, named by the pipeline stage that created it. -/
inductive Handle where
  /-- The file of `os.Open(inFile)`. -/
  | inFile (i : Nat)
  /-- The file of `os.Open("/dev/null")`. -/
  | devNull (i : Nat)
  /-- The file of `os.Create(outFile)` or `os.OpenFile(outFile, O_APPEND...)`. -/
  | outFile (i : Nat)
  /-- The read end of the pipe made by stage `i`. -/
  | pipeReader (i : Nat)
  /-- The write end of the pipe made by stage `i`. -/
  | pipeWriter (i : Nat)
deriving DecidableEq

/-- Whether a handle is one end of a pipe. -/
def Handle.isPipeEnd : Handle → Bool
  | .pipeReader _ => true
  | .pipeWriter _ => true
  | _ => false

/-- What a child gets as `cmd.Stdin` or `cmd.Stdout`. -/
inductive Stream where
  /-- The shell's own `os.Stdin` or `os.Stdout`. -/
  | inherited
  /-- A file opened by the shell. -/
  | file (h : Handle)
  /-- A nil `*os.File`: `prevReader` while no pipe has been made. -/
  | nilFile
deriving DecidableEq

/-- How a redirect file is opened. -/
inductive OpenMode where
  /-- The mode of `os.Open`. -/
  | read
  /-- The mode of `os.Create`: truncate. -/
  | truncate
  /-- The mode `O_APPEND|O_CREATE|O_WRONLY`. -/
  | append
deriving DecidableEq

/-- What `cmd.Wait()` returns: nil, an `*exec.ExitError`, or another error. -/
inductive WaitResult where
  | ok
  | exitError
  | otherError
deriving DecidableEq

/-- The answers of the operating system, one per stage and kind of call. -/
structure OS where
  /-- Whether opening the stdin file (`inFile` or `/dev/null`) of stage `i` succeeds. -/
  openIn : Nat → Bool
  /-- Whether opening the stdout file of stage `i` succeeds. -/
  openOut : Nat → Bool
  /-- Whether `os.Pipe()` of stage `i` succeeds. -/
  pipe : Nat → Bool
  /-- The process id when `cmd.Start()` of stage `i` succeeds. -/
  start : Nat → Option Int
  /-- The result of `cmd.Wait()` for stage `i`. -/
  wait : Nat → WaitResult
  /-- The value of `unix.Getpgid(pid)`; its error is ignored by the code. -/
  getpgid : Int → Int
  /-- The value of `unix.Getpgrp()`. -/
  getpgrp : Int

/-- What the shell does to the outside world. The text of an OS error that
follows a printed label is left out. -/
inductive Event where
  | opened (path : String) (mode : OpenMode) (h : Handle)
  | openFailed (path : String) (mode : OpenMode)
  | pipeMade (i : Nat)
  | pipeFailed (i : Nat)
  | started (i : Nat) (argv : List String) (stdin stdout : Stream) (pid : Int)
  | startFailed (i : Nat) (argv : List String) (stdin stdout : Stream)
  | closed (h : Handle)
  /-- The call `fmt.Println(label, err)`. -/
  | println (label : String)
  /-- The call `fmt.Printf("[bg] pid=%d\n", pid)`. -/
  | printBg (pid : Int)
  /-- The call `fmt.Print(text)`. -/
  | print (text : String)
  /-- The function `setForeground`: the ioctl `TIOCSPGRP`, its error ignored. -/
  | tcsetpgrp (pgid : Int)
  | waited (i : Nat)
  /-- The statement `go monitorJob(cmd, pgid)` or `go monitorPipeline(cmds, pgid)`. -/
  | goMonitor (stages : List Nat) (pgid : Int)
  /-- The call `unix.Kill(target, sig)`, its error ignored. -/
  | kill (target : Int) (sig : Nat)
deriving DecidableEq

/-- How a call ends. -/
inductive Outcome where
  | returned
  /-- A run-time panic (index out of range); nothing recovers it. -/
  | panicked
deriving DecidableEq

/-- The package-level variables, the events and the outcome of one launch. -/
structure Result where
  shell : Shell
  events : List Event
  outcome : Outcome

/-- Leaving a function: the deferred `Close` calls run, last registered first
(`defers` has the last registered first). -/
def leave (s : Shell) (events : List Event) (defers : List Handle) (o : Outcome) : Result :=
  { shell := s, events := events ++ defers.map Event.closed, outcome := o }

/-- How one event changes the pipe ends the shell holds open: `os.Pipe` adds
its two ends, `Close` removes the file closed. -/
def pipeEndsStep (held : List Handle) : Event → List Handle
  | .pipeMade i => held ++ [.pipeReader i, .pipeWriter i]
  | .closed h => held.erase h
  | _ => held

/-- The pipe ends the shell holds open after `events`: those made by `os.Pipe`
and not closed since. -/
def openPipeEnds (events : List Event) : List Handle :=
  events.foldl pipeEndsStep []

/-- How one event changes the files (pipe ends and redirect files) the shell
holds open. -/
def handlesStep (held : List Handle) : Event → List Handle
  | .opened _ _ h => held ++ [h]
  | .pipeMade i => held ++ [.pipeReader i, .pipeWriter i]
  | .closed h => held.erase h
  | _ => held

/-- The files the shell holds open after `events`. -/
def openHandles (events : List Event) : List Handle :=
  events.foldl handlesStep []

/-- Whether an event is a successful `os.Pipe()`. -/
def Event.isPipeMade : Event → Bool
  | .pipeMade _ => true
  | _ => false

/-- Whether an event is a successful `cmd.Start()`. -/
def Event.isStarted : Event → Bool
  | .started _ _ _ _ _ => true
  | _ => false

/-! ## Launching a single command -/

/-- The stdin block shared verbatim by `ExecuteWithBackground` (lines 48-68)
and by stage 0 of `ExecutePipelineWithBackground` (lines 163-182): the stream,
the events and the deferred close; no stream means the function returns. -/
def openStdin (os : OS) (i : Nat) (inFile : String) (background : Bool) :
    Option Stream × List Event × List Handle :=
  if inFile ≠ "" then
    if os.openIn i then
      (some (.file (.inFile i)), [.opened inFile .read (.inFile i)], [.inFile i])
    else (none, [.openFailed inFile .read, .println "input redirect error:"], [])
  else if background then
    if os.openIn i then
      (some (.file (.devNull i)), [.opened "/dev/null" .read (.devNull i)], [.devNull i])
    else (none, [.openFailed "/dev/null" .read, .println "error opening /dev/null:"], [])
  else (some .inherited, [], [])

/-- The stdout block shared verbatim by `ExecuteWithBackground` (lines 70-89)
and by the last stage of `ExecutePipelineWithBackground` (lines 192-208). -/
def openStdout (os : OS) (i : Nat) (outFile : String) (appendMode : Bool) :
    Option Stream × List Event × List Handle :=
  if outFile ≠ "" then
    let mode := if appendMode then OpenMode.append else OpenMode.truncate
    if os.openOut i then
      (some (.file (.outFile i)), [.opened outFile mode (.outFile i)], [.outFile i])
    else (none, [.openFailed outFile mode, .println "output redirect error:"], [])
  else (some .inherited, [], [])

/-- The function `ExecuteWithBackground`. The one command is stage 0. -/
def ExecuteWithBackground (tokens : List String) (background : Bool) (cmdStr : String)
    (os : OS) (s : Shell) : Result :=
  if tokens.length = 0 then leave s [] [] .returned
  else
    let p := parseRedirection tokens
    if p.clean.length = 0 then leave s [] [] .returned
    else
      match openStdin os 0 p.inFile background with
      | (none, ev1, _) => leave s ev1 [] .returned
      | (some stdin, ev1, df1) =>
        match openStdout os 0 p.outFile p.appendMode with
        | (none, ev2, _) => leave s (ev1 ++ ev2) df1 .returned
        | (some stdout, ev2, df2) =>
          match os.start 0 with
          | none =>
            leave s (ev1 ++ ev2 ++ [.startFailed 0 p.clean stdin stdout, .println "start error:"])
              (df2 ++ df1) .returned
          | some pid =>
            let ev3 := ev1 ++ ev2 ++ [.started 0 p.clean stdin stdout pid]
            let pgid := os.getpgid pid
            if background then
              leave (addJob s pgid cmdStr) (ev3 ++ [.printBg pid, .goMonitor [0] pgid])
                (df2 ++ df1) .returned
            else
              let s1 := setCurrentFgPgid s pgid
              let s2 := setCurrentFgPgid s1 (-1)
              let ev4 := ev3 ++ [.tcsetpgrp pgid, .waited 0, .tcsetpgrp os.getpgrp]
              let ev5 := if os.wait 0 = .otherError then [Event.println "command error:"] else []
              leave s2 (ev4 ++ ev5) (df2 ++ df1) .returned

/-! ## Launching a pipeline -/

/-- Local variables of `ExecutePipelineWithBackground` that live across loop
iterations, with the events so far and the deferred closes (last first). -/
structure Frame where
  /-- The slice `cmds`: stage index and process id of each started stage. -/
  cmds : List (Nat × Int)
  prevReader : Option Handle
  defers : List Handle
  events : List Event

/-- The frame before the loop. -/
def Frame.empty : Frame := { cmds := [], prevReader := none, defers := [], events := [] }

/-- The value of a `*os.File` variable as a stream. -/
def streamOf : Option Handle → Stream
  | some h => .file h
  | none => .nilFile

/-- The events of `if f != nil { f.Close() }`. -/
def closeIfSet : Option Handle → List Event
  | some h => [.closed h]
  | none => []

/-- Lines 144-153 of the loop body: only the first and the last stage go
through `parseRedirection`; an interior stage keeps its tokens as they are. -/
def stageRedirection (n i : Nat) (tokens : List String) : Redirection :=
  if i = 0 ∨ i = n - 1 then parseRedirection tokens
  else { clean := tokens, inFile := "", outFile := "", appendMode := false }

/-- Lines 161-185 of the loop body: stage 0 resolves stdin as the single
command does, a later stage reads `prevReader`. -/
def stageStdin (background : Bool) (os : OS) (i : Nat) (inFile : String)
    (prevReader : Option Handle) : Option Stream × List Event × List Handle :=
  if i = 0 then openStdin os i inFile background
  else (some (streamOf prevReader), [], [])

/-- Lines 190-217 of the loop body: the last stage resolves stdout as the
single command does, an earlier stage writes to a new pipe. -/
def stageStdout (n : Nat) (os : OS) (i : Nat) (outFile : String) (appendMode : Bool) :
    Option Stream × List Event × List Handle :=
  if i = n - 1 then openStdout os i outFile appendMode
  else if os.pipe i then (some (.file (.pipeWriter i)), [.pipeMade i], [])
  else (none, [.pipeFailed i, .println "pipe error:"], [])

/-- The variables `pipeReader` and `pipeWriter` after the stdout block: set
only when `os.Pipe()` was called (and succeeded). -/
def stagePipe (n i : Nat) (mk : Nat → Handle) : Option Handle :=
  if i = n - 1 then none else some (mk i)

/-- One iteration of the loop of `ExecutePipelineWithBackground` for stage `i`
of `n`; the flag is false when the body executes `return`. -/
def pipelineStage (n : Nat) (background : Bool) (os : OS) (i : Nat) (tokens : List String)
    (f : Frame) : Frame × Bool :=
  if tokens.length = 0 then (f, true)
  else
    let p := stageRedirection n i tokens
    if (i = 0 ∨ i = n - 1) ∧ p.clean.length = 0 then (f, false)
    else
      match stageStdin background os i p.inFile f.prevReader with
      | (none, ev1, _) => ({ f with events := f.events ++ ev1 }, false)
      | (some stdin, ev1, df1) =>
        match stageStdout n os i p.outFile p.appendMode with
        | (none, ev2, _) =>
          ({ f with events := f.events ++ ev1 ++ ev2, defers := df1 ++ f.defers }, false)
        | (some stdout, ev2, df2) =>
          match os.start i with
          | none =>
            ({ f with
               events := f.events ++ ev1 ++ ev2 ++
                 [.startFailed i p.clean stdin stdout, .println "start error:"]
               defers := df2 ++ df1 ++ f.defers }, false)
          | some pid =>
            ({ cmds := f.cmds ++ [(i, pid)]
               prevReader := stagePipe n i Handle.pipeReader
               defers := df2 ++ df1 ++ f.defers
               events := f.events ++ ev1 ++ ev2 ++ [.started i p.clean stdin stdout pid] ++
                 closeIfSet (stagePipe n i Handle.pipeWriter) ++ closeIfSet f.prevReader }, true)

/-- The loop `for i, tokens := range commands` from stage `i` on. -/
def pipelineLoop (n : Nat) (background : Bool) (os : OS) :
    Nat → List (List String) → Frame → Frame × Bool
  | _, [], f => (f, true)
  | i, tokens :: rest, f =>
    match pipelineStage n background os i tokens f with
    | (f1, true) => pipelineLoop n background os (i + 1) rest f1
    | (f1, false) => (f1, false)

/-- The function `ExecutePipelineWithBackground`. With no started stage,
`cmds[0]` panics. -/
def ExecutePipelineWithBackground (commands : List (List String)) (background : Bool)
    (cmdStr : String) (os : OS) (s : Shell) : Result :=
  if commands.length = 0 then leave s [] [] .returned
  else
    match pipelineLoop commands.length background os 0 commands Frame.empty with
    | (f, false) => leave s f.events f.defers .returned
    | (f, true) =>
      match f.cmds with
      | [] => leave s f.events f.defers .panicked
      | (_, pid0) :: _ =>
        let pgid := os.getpgid pid0
        if background then
          leave (addJob s pgid cmdStr)
            (f.events ++ [.printBg pid0, .goMonitor (f.cmds.map Prod.fst) pgid])
            f.defers .returned
        else
          let s1 := setCurrentFgPgid s pgid
          let s2 := setCurrentFgPgid s1 (-1)
          leave s2
            (f.events ++ [.tcsetpgrp pgid] ++ f.cmds.map (fun c => Event.waited c.1) ++
              [.tcsetpgrp os.getpgrp])
            f.defers .returned

/-! ## Interrupt forwarding -/

/-- The signal number of `unix.SIGINT`. -/
def SIGINT : Nat := 2

/-- The function `SendSignalToFg`. -/
def SendSignalToFg (s : Shell) (sig : Nat) : List Event :=
  let pgid := s.currentFgPgid
  if pgid > 0 then [.kill (-pgid) sig] else []

/-- One turn of the listener goroutine of `repl.Run` after `<-sigChan`, with
the package-level variables `s` fixed during the turn. -/
def handleInterrupt (s : Shell) : List Event :=
  if GetCurrentFgPgid s > 0 then SendSignalToFg s SIGINT
  else [.print "\nmyshell> "]

/-- An operating system where every call succeeds; stage `i` gets pid `100 + i`
and its own process group. -/
def OS.allOk : OS :=
  { openIn := fun _ => true
    openOut := fun _ => true
    pipe := fun _ => true
    start := fun i => some (100 + (i : Int))
    wait := fun _ => .ok
    getpgid := fun pid => pid
    getpgrp := 1 }

/-- As `OS.allOk`, but `cmd.Start()` of stage `k` fails. -/
def OS.startFails (k : Nat) : OS :=
  { OS.allOk with start := fun i => if i = k then none else some (100 + (i : Int)) }

/-- As `OS.allOk`, but the stdout redirect file of stage `k` cannot be opened. -/
def OS.openOutFails (k : Nat) : OS :=
  { OS.allOk with openOut := fun i => decide (i ≠ k) }

/-- As `OS.allOk`, but `os.Pipe()` of stage `k` fails. -/
def OS.pipeFails (k : Nat) : OS :=
  { OS.allOk with pipe := fun i => decide (i ≠ k) }

/-- As `OS.allOk`, but `cmd.Wait()` returns an error that is no `*exec.ExitError`. -/
def OS.waitFails : OS :=
  { OS.allOk with wait := fun _ => .otherError }

/-- Whether an event is the message the single-command launch prints when
`cmd.Wait()` fails with an error that is no `*exec.ExitError`. -/
def Event.isCommandError (e : Event) : Bool :=
  decide (e = .println "command error:")

/-- In `events`, stage `j` is started with the write end of its pipe as stdout
and the very next event is the shell closing that write end. -/
def writeEndClosedAfterStart (j : Nat) (events : List Event) : Prop :=
  ∃ (before after : List Event) (argv : List String) (sin : Stream) (pid : Int),
    events = before ++
      [.started j argv sin (.file (.pipeWriter j)) pid, .closed (.pipeWriter j)] ++ after

/-- In `events` of a pipeline of `n` stages, stage `j + 1` is started with the
read end of the pipe of stage `j` as stdin, and the shell closes that read end
right after, only the close of the write end just handed to stage `j + 1`
(when that stage is not the last) coming in between. -/
def readEndClosedAfterNextStart (n j : Nat) (events : List Event) : Prop :=
  ∃ (before after : List Event) (argv : List String) (sout : Stream) (pid : Int),
    events = before ++ [.started (j + 1) argv (.file (.pipeReader j)) sout pid] ++
      (if j + 2 < n then [.closed (.pipeWriter (j + 1))] else []) ++
      [.closed (.pipeReader j)] ++ after

/-- What holds of the frame of `ExecutePipelineWithBackground` before stage `i`
of a pipeline of `n` stages when every earlier stage was started (`i = n`: when
the loop is over): which stages were started, which pipe end `prevReader` is,
which pipe ends the shell holds open, which pipes were made, and when the ends
of the earlier pipes were closed. -/
structure StagesStarted (n i : Nat) (f : Frame) : Prop where
  cmds : f.cmds.map Prod.fst = List.range i
  prevReader : f.prevReader = if i = 0 ∨ i = n then none else some (.pipeReader (i - 1))
  held : openPipeEnds f.events = if i = 0 ∨ i = n then [] else [.pipeReader (i - 1)]
  pipes : f.events.filter Event.isPipeMade = (List.range (min i (n - 1))).map Event.pipeMade
  writeEnds : ∀ j, j < i → j + 1 < n → writeEndClosedAfterStart j f.events
  readEnds : ∀ j, j + 1 < i → readEndClosedAfterNextStart n j f.events

/-! ## Redirection parsing: proofs -/

theorem isRedirOp_eq_false_iff (t : String) :
    isRedirOp t = false ↔ t ≠ "<" ∧ t ≠ ">" ∧ t ≠ ">>" := by
  simp [isRedirOp, and_assoc]

theorem parseRedirectionLoop_clean : ∀ (tokens : List String) (r : Redirection),
    (parseRedirectionLoop tokens r).clean = r.clean ++ removeRedirections tokens
  | [], r => by simp [parseRedirectionLoop, removeRedirections]
  | [t], r => by
    simp only [parseRedirectionLoop, removeRedirections, isRedirOp]
    split_ifs <;> simp_all
  | t :: next :: rest, r => by
    have ih1 := parseRedirectionLoop_clean rest
    have ih2 := parseRedirectionLoop_clean (next :: rest)
    simp only [parseRedirectionLoop, removeRedirections, isRedirOp]
    split_ifs <;> simp_all

theorem removeRedirections_no_op : ∀ (tokens : List String),
    ∀ t ∈ removeRedirections tokens, isRedirOp t = false
  | [] => by simp [removeRedirections]
  | [t] => by
    simp only [removeRedirections]
    split_ifs <;> simp_all
  | t :: next :: rest => by
    have ih1 := removeRedirections_no_op rest
    have ih2 := removeRedirections_no_op (next :: rest)
    simp only [removeRedirections]
    split_ifs <;> simp_all

theorem removeRedirections_sublist : ∀ (tokens : List String),
    (removeRedirections tokens).Sublist tokens
  | [] => by simp [removeRedirections]
  | [t] => by
    simp only [removeRedirections]
    split_ifs <;> simp
  | t :: next :: rest => by
    have ih1 := removeRedirections_sublist rest
    have ih2 := removeRedirections_sublist (next :: rest)
    simp only [removeRedirections]
    split_ifs
    · exact (ih1.cons next).cons t
    · exact ih2.cons₂ t

theorem parseRedirectionLoop_cons_plain (t : String) (rest : List String) (r : Redirection)
    (ht : isRedirOp t = false) :
    parseRedirectionLoop (t :: rest) r =
      parseRedirectionLoop rest { r with clean := r.clean ++ [t] } := by
  have h := (isRedirOp_eq_false_iff t).1 ht
  rw [parseRedirectionLoop.eq_def]
  simp [h.1, h.2.1, h.2.2]

theorem parseRedirectionLoop_append_plain (pre : List String) :
    ∀ (rest : List String) (r : Redirection), (∀ t ∈ pre, isRedirOp t = false) →
      parseRedirectionLoop (pre ++ rest) r =
        parseRedirectionLoop rest { r with clean := r.clean ++ pre } := by
  induction pre with
  | nil => intro rest r _; simp
  | cons t pre ih =>
    intro rest r h
    have hp : ∀ u ∈ pre, isRedirOp u = false := fun u hu => h u (by simp [hu])
    rw [List.cons_append, parseRedirectionLoop_cons_plain t _ r (h t (by simp)), ih rest _ hp]
    simp

theorem parseRedirectionLoop_no_op (tokens : List String) (r : Redirection)
    (h : ∀ t ∈ tokens, isRedirOp t = false) :
    parseRedirectionLoop tokens r = { r with clean := r.clean ++ tokens } := by
  have := parseRedirectionLoop_append_plain tokens [] r h
  simpa [parseRedirectionLoop] using this

/-- **C9.** `parseRedirection` removes exactly the operators `<`, `>`, `>>` and
the token after each: the clean list is the input scanned left to right with
each operator and its following token removed, in order; it holds no operator
token; an input without operator comes back unchanged with empty files and
`appendMode = false`; a single operator after an operator-free prefix sets the
file it names to the token that follows; and the scenario
`grep err > out.txt` gives `["grep","err"]`, outFile `out.txt`, truncate. -/
theorem parseRedirection_extracts (tokens : List String) :
    (parseRedirection tokens).clean = removeRedirections tokens ∧
    (∀ t ∈ (parseRedirection tokens).clean, t ≠ "<" ∧ t ≠ ">" ∧ t ≠ ">>") ∧
    (parseRedirection tokens).clean.Sublist tokens ∧
    ((∀ t ∈ tokens, t ≠ "<" ∧ t ≠ ">" ∧ t ≠ ">>") →
      parseRedirection tokens =
        { clean := tokens, inFile := "", outFile := "", appendMode := false }) ∧
    (∀ (pre post : List String) (a : String),
      (∀ t ∈ pre ++ post, t ≠ "<" ∧ t ≠ ">" ∧ t ≠ ">>") →
        parseRedirection (pre ++ ">" :: a :: post) =
          { clean := pre ++ post, inFile := "", outFile := a, appendMode := false } ∧
        parseRedirection (pre ++ ">>" :: a :: post) =
          { clean := pre ++ post, inFile := "", outFile := a, appendMode := true } ∧
        parseRedirection (pre ++ "<" :: a :: post) =
          { clean := pre ++ post, inFile := a, outFile := "", appendMode := false }) ∧
    parseRedirection ["grep", "err", ">", "out.txt"] =
      { clean := ["grep", "err"], inFile := "", outFile := "out.txt", appendMode := false } := by
  have hclean : (parseRedirection tokens).clean = removeRedirections tokens := by
    simp [parseRedirection, parseRedirectionLoop_clean]
  refine ⟨hclean, ?_, ?_, ?_, ?_, by decide⟩
  · intro t ht
    rw [hclean] at ht
    exact (isRedirOp_eq_false_iff t).1 (removeRedirections_no_op tokens t ht)
  · rw [hclean]
    exact removeRedirections_sublist tokens
  · intro h
    rw [parseRedirection, parseRedirectionLoop_no_op tokens _
      (fun t ht => (isRedirOp_eq_false_iff t).2 (h t ht))]
    simp
  · intro pre post a h
    have hpre : ∀ t ∈ pre, isRedirOp t = false :=
      fun t ht => (isRedirOp_eq_false_iff t).2 (h t (by simp [ht]))
    have hpost : ∀ t ∈ post, isRedirOp t = false :=
      fun t ht => (isRedirOp_eq_false_iff t).2 (h t (by simp [ht]))
    refine ⟨?_, ?_, ?_⟩ <;>
      simp [parseRedirection, parseRedirectionLoop_append_plain pre _ _ hpre, parseRedirectionLoop,
        parseRedirectionLoop_no_op post _ hpost]

/-! ## Job table: proofs -/

theorem wrapInt_succ (x : Int) : wrapInt (wrapInt x + 1) = wrapInt (x + 1) := by
  unfold wrapInt
  omega

theorem wrapInt_of_le (x : Int) (h0 : 0 ≤ x) (h1 : x ≤ maxInt) : wrapInt x = x := by
  unfold wrapInt
  unfold maxInt at h1
  omega

theorem markJobDoneLoop_length (pgid : Int) (js : List Job) :
    (markJobDoneLoop pgid js).length = js.length := by
  induction js with
  | nil => rfl
  | cons j rest ih =>
    simp only [markJobDoneLoop]
    split_ifs <;> simp [ih]

theorem markJobDoneLoop_map_ID (pgid : Int) (js : List Job) :
    (markJobDoneLoop pgid js).map Job.ID = js.map Job.ID := by
  induction js with
  | nil => rfl
  | cons j rest ih =>
    simp only [markJobDoneLoop]
    split_ifs <;> simp [ih]

/-- What `markJobDone` does to the job at each position. -/
theorem markJobDoneLoop_getElem? (pgid : Int) (js : List Job) :
    ∀ (k : Nat) (j : Job), js[k]? = some j →
      (markJobDoneLoop pgid js)[k]? = some j ∨
      (markJobDoneLoop pgid js)[k]? = some { j with State := "Done" } := by
  induction js with
  | nil => intro k j h; simp at h
  | cons j0 rest ih =>
    intro k j h
    simp only [markJobDoneLoop]
    split_ifs with hp
    · cases k with
      | zero =>
        simp only [List.getElem?_cons_zero, Option.some.injEq] at h
        subst h
        right
        simp
      | succ k => left; simpa using h
    · cases k with
      | zero => left; simpa using h
      | succ k =>
        simp only [List.getElem?_cons_succ] at h ⊢
        exact ih k j h

theorem reachable_states {s : Shell} (h : Reachable s) :
    ∀ j ∈ s.jobs, j.State = "Running" ∨ j.State = "Done" := by
  induction h with
  | init => intro j hj; simp [Shell.init] at hj
  | add pgid cmd _ ih =>
    intro j hj
    simp only [addJob, List.mem_append, List.mem_singleton] at hj
    rcases hj with hj | hj
    · exact ih j hj
    · left; rw [hj]
  | @markDone s pgid _ ih =>
    intro j hj
    obtain ⟨k, hk⟩ := List.getElem?_of_mem hj
    have hlen : k < s.jobs.length := by
      have := (List.getElem?_eq_some.1 hk).1
      simpa [markJobDone, markJobDoneLoop_length] using this
    have hsome : s.jobs[k]? = some (s.jobs[k]) := List.getElem?_eq_getElem hlen
    rcases markJobDoneLoop_getElem? pgid s.jobs k _ hsome with h1 | h1
    · have : j = s.jobs[k] := by
        simp only [markJobDone] at hk
        rw [h1] at hk
        exact (Option.some.inj hk).symm
      rw [this]
      exact ih _ (List.getElem_mem hlen)
    · have : j = { s.jobs[k] with State := "Done" } := by
        simp only [markJobDone] at hk
        rw [h1] at hk
        exact (Option.some.inj hk).symm
      right; rw [this]

/-- The ids in a reachable table count up from 1 (modulo the width of `int`),
and `nextJobID` is the next one. -/
theorem reachable_ids {s : Shell} (h : Reachable s) :
    s.nextJobID = wrapInt ((s.jobs.length : Int) + 1) ∧
    s.jobs.map Job.ID = (List.range s.jobs.length).map (fun (k : Nat) => wrapInt ((k : Int) + 1)) := by
  induction h with
  | init => simp [Shell.init, wrapInt]
  | @add s pgid cmd _ ih =>
    obtain ⟨h1, h2⟩ := ih
    constructor
    · simp only [addJob, List.length_append, List.length_singleton, Nat.cast_add, Nat.cast_one]
      rw [h1, wrapInt_succ]
    · simp only [addJob, List.map_append, List.length_append, List.length_singleton,
        List.range_succ, List.map_cons, List.map_nil]
      rw [h2, h1]
  | @markDone s pgid _ ih =>
    obtain ⟨h1, h2⟩ := ih
    simp only [markJobDone, markJobDoneLoop_length, markJobDoneLoop_map_ID]
    exact ⟨h1, h2⟩

theorem reachable_runOps (ops : List JobOp) : ∀ s : Shell, Reachable s → Reachable (runOps ops s) := by
  induction ops with
  | nil => intro s h; exact h
  | cons op ops ih =>
    intro s h
    simp only [runOps, List.foldl_cons]
    apply ih
    cases op with
    | add pgid cmd => exact Reachable.add pgid cmd h
    | markDone pgid => exact Reachable.markDone pgid h
    | get => exact h

theorem reachable_id_at {s : Shell} (h : Reachable s) (hlen : (s.jobs.length : Int) ≤ maxInt)
    (k : Nat) (j : Job) (hk : s.jobs[k]? = some j) : j.ID = (k : Int) + 1 := by
  have h2 := (reachable_ids h).2
  have hk1 : k < s.jobs.length := (List.getElem?_eq_some.1 hk).1
  have hmap : (s.jobs.map Job.ID)[k]? = some j.ID := by simp [hk]
  rw [h2] at hmap
  simp only [List.getElem?_map, List.getElem?_range hk1, Option.map_some'] at hmap
  have := Option.some.inj hmap
  rw [← this]
  apply wrapInt_of_le <;> omega

/-- **C5 (evaluation of the code).** A group id that is reused: job 1 with
pgid 5 is added and marked Done, job 2 with the same pgid 5 is added, and
`markJobDone(5)` is called for it. The loop stops at job 1, the first job whose
PGID is 5, which is already Done; job 2 stays Running. -/
theorem markJobDone_reused_pgid_stays_running :
    (markJobDone (addJob (markJobDone (addJob Shell.init 5 "sleep 1 &") 5) 5 "sleep 2 &") 5).jobs =
      [{ ID := 1, PGID := 5, Cmd := "sleep 1 &", State := "Done" },
       { ID := 2, PGID := 5, Cmd := "sleep 2 &", State := "Running" }] := by
  decide

/-- **C6.** After any sequence of `addJob` and `markJobDone` calls from the
initial state (the table being below the largest slice length a Go `int` can
count), `addJob(pgid, cmd)` appends exactly one job at the end, with the given
pgid and command text, state Running and id `len + 1`; that id is at least 1
and greater than every id already in the table; the job at position `k`
(counted from 0) has id `k + 1`, and ids increase strictly in table order. -/
theorem addJob_appends_increasing_id (ops : List JobOp) (pgid : Int) (cmd : String)
    (hlen : ((runOps ops Shell.init).jobs.length : Int) < maxInt) :
    (addJob (runOps ops Shell.init) pgid cmd).jobs =
      (runOps ops Shell.init).jobs ++
        [{ ID := ((runOps ops Shell.init).jobs.length : Int) + 1, PGID := pgid, Cmd := cmd,
           State := "Running" }] ∧
    (1 : Int) ≤ ((runOps ops Shell.init).jobs.length : Int) + 1 ∧
    (∀ j ∈ (runOps ops Shell.init).jobs,
      1 ≤ j.ID ∧ j.ID < ((runOps ops Shell.init).jobs.length : Int) + 1) ∧
    (∀ (k : Nat) (j : Job),
      (addJob (runOps ops Shell.init) pgid cmd).jobs[k]? = some j → j.ID = (k : Int) + 1) ∧
    ((addJob (runOps ops Shell.init) pgid cmd).jobs.map Job.ID).Pairwise (fun a b => a < b) := by
  have hr : Reachable (runOps ops Shell.init) := reachable_runOps ops _ Reachable.init
  generalize runOps ops Shell.init = s at hr hlen
  have hnext : s.nextJobID = (s.jobs.length : Int) + 1 := by
    rw [(reachable_ids hr).1]
    apply wrapInt_of_le <;> omega
  have hr2 : Reachable (addJob s pgid cmd) := Reachable.add pgid cmd hr
  have hlen2 : ((addJob s pgid cmd).jobs.length : Int) ≤ maxInt := by
    simp only [addJob, List.length_append, List.length_singleton, Nat.cast_add, Nat.cast_one]
    omega
  have hat := reachable_id_at hr2 hlen2
  refine ⟨by simp [addJob, hnext], by omega, ?_, hat, ?_⟩
  · intro j hj
    obtain ⟨k, hk⟩ := List.getElem?_of_mem hj
    have hk1 : k < s.jobs.length := (List.getElem?_eq_some.1 hk).1
    have := reachable_id_at hr (by omega) k j hk
    omega
  · rw [List.pairwise_map, List.pairwise_iff_getElem]
    intro a b ha hb hab
    have h1 := hat a _ (List.getElem?_eq_getElem ha)
    have h2 := hat b _ (List.getElem?_eq_getElem hb)
    omega

/-- Witness for C6: the third `addJob` after two jobs, one of them marked Done. -/
theorem addJob_appends_increasing_id_witness :
    (addJob (runOps [.add 7 "a &", .markDone 7, .add 9 "b &"] Shell.init) 11 "c &").jobs =
      [{ ID := 1, PGID := 7, Cmd := "a &", State := "Done" },
       { ID := 2, PGID := 9, Cmd := "b &", State := "Running" },
       { ID := 3, PGID := 11, Cmd := "c &", State := "Running" }] ∧
    ((addJob (runOps [.add 7 "a &", .markDone 7, .add 9 "b &"] Shell.init) 11 "c &").jobs.map
      Job.ID).Pairwise (fun a b => a < b) :=
  ⟨by decide,
   (addJob_appends_increasing_id [.add 7 "a &", .markDone 7, .add 9 "b &"] 11 "c &"
      (by decide)).2.2.2.2⟩

/-- **C7.** In a table reached from the initial state, no call (`addJob`,
`markJobDone`, `GetJobs`) removes or reorders a job or takes a state from Done
back to Running: the job at position `k` before the call is at position `k`
afterwards with the same id, pgid and command text, and its state is unchanged
or went from Running to Done. `GetJobs` returns the table as it is. -/
theorem job_table_monotone (ops : List JobOp) (op : JobOp) (k : Nat) (j : Job)
    (hj : (runOps ops Shell.init).jobs[k]? = some j) :
    (∃ j2 : Job, (op.apply (runOps ops Shell.init)).jobs[k]? = some j2 ∧
      j2.ID = j.ID ∧ j2.PGID = j.PGID ∧ j2.Cmd = j.Cmd ∧
      (j2.State = j.State ∨ (j.State = "Running" ∧ j2.State = "Done"))) ∧
    GetJobs (runOps ops Shell.init) = (runOps ops Shell.init).jobs := by
  have hr : Reachable (runOps ops Shell.init) := reachable_runOps ops _ Reachable.init
  generalize runOps ops Shell.init = s at hr hj
  refine ⟨?_, rfl⟩
  cases op with
  | add pgid cmd =>
    refine ⟨j, ?_, rfl, rfl, rfl, Or.inl rfl⟩
    have hk : k < s.jobs.length := (List.getElem?_eq_some.1 hj).1
    simp only [JobOp.apply, addJob]
    rw [List.getElem?_append_left hk]
    exact hj
  | markDone pgid =>
    rcases markJobDoneLoop_getElem? pgid s.jobs k j hj with h | h
    · exact ⟨j, h, rfl, rfl, rfl, Or.inl rfl⟩
    · refine ⟨_, h, rfl, rfl, rfl, ?_⟩
      rcases reachable_states hr j (List.getElem?_mem hj) with hs | hs
      · exact Or.inr ⟨hs, rfl⟩
      · exact Or.inl hs.symm
  | get => exact ⟨j, hj, rfl, rfl, rfl, Or.inl rfl⟩

/-- Witness for C7: marking the Running job at position 0 of a two-job table. -/
theorem job_table_monotone_witness :
    (runOps [.add 7 "a &", .add 9 "b &"] Shell.init).jobs[0]? =
      some { ID := 1, PGID := 7, Cmd := "a &", State := "Running" } ∧
    ∃ j2 : Job,
      ((JobOp.markDone 7).apply (runOps [.add 7 "a &", .add 9 "b &"] Shell.init)).jobs[0]? =
        some j2 ∧
      j2.ID = 1 ∧ j2.PGID = 7 ∧ j2.Cmd = "a &" ∧
      (j2.State = "Running" ∨ ("Running" = "Running" ∧ j2.State = "Done")) :=
  ⟨by decide,
   (job_table_monotone [.add 7 "a &", .add 9 "b &"] (.markDone 7) 0
      { ID := 1, PGID := 7, Cmd := "a &", State := "Running" } (by decide)).1⟩

/-! ## Interrupt forwarding: proofs -/

/-- **C8.** One interrupt handled by the listener, the foreground state being
fixed during the turn: with a foreground group `G > 0` the only effect is one
`kill(-G, SIGINT)`, and no prompt; with no foreground group (`-1`) the only
effect is one printed prompt, and no signal. -/
theorem handleInterrupt_effect (s : Shell) :
    (0 < s.currentFgPgid → handleInterrupt s = [Event.kill (-s.currentFgPgid) SIGINT]) ∧
    (s.currentFgPgid = -1 → handleInterrupt s = [Event.print "\nmyshell> "]) := by
  constructor
  · intro h
    simp [handleInterrupt, GetCurrentFgPgid, SendSignalToFg, h]
  · intro h
    simp [handleInterrupt, GetCurrentFgPgid, h]

/-- Witness for C8: foreground group 4321, and no foreground group. -/
theorem handleInterrupt_effect_witness :
    handleInterrupt { currentFgPgid := 4321, jobs := [], nextJobID := 1 } =
      [Event.kill (-4321) 2] ∧
    handleInterrupt Shell.init = [Event.print "\nmyshell> "] :=
  ⟨(handleInterrupt_effect { currentFgPgid := 4321, jobs := [], nextJobID := 1 }).1 (by decide),
   (handleInterrupt_effect Shell.init).2 (by decide)⟩

/-! ## Launching: proofs -/

/-! ### How the event predicates read each kind of event -/

@[simp] theorem isCommandError_opened (path : String) (mode : OpenMode) (h : Handle) :
    (Event.opened path mode h).isCommandError = false := by
  simp [Event.isCommandError]

@[simp] theorem isStarted_opened (path : String) (mode : OpenMode) (h : Handle) :
    (Event.opened path mode h).isStarted = false := rfl

@[simp] theorem isPipeMade_opened (path : String) (mode : OpenMode) (h : Handle) :
    (Event.opened path mode h).isPipeMade = false := rfl

@[simp] theorem isCommandError_openFailed (path : String) (mode : OpenMode) :
    (Event.openFailed path mode).isCommandError = false := by
  simp [Event.isCommandError]

@[simp] theorem isStarted_openFailed (path : String) (mode : OpenMode) :
    (Event.openFailed path mode).isStarted = false := rfl

@[simp] theorem isPipeMade_openFailed (path : String) (mode : OpenMode) :
    (Event.openFailed path mode).isPipeMade = false := rfl

@[simp] theorem isCommandError_pipeFailed (i : Nat) :
    (Event.pipeFailed i).isCommandError = false := by
  simp [Event.isCommandError]

@[simp] theorem isStarted_pipeFailed (i : Nat) :
    (Event.pipeFailed i).isStarted = false := rfl

@[simp] theorem isPipeMade_pipeFailed (i : Nat) :
    (Event.pipeFailed i).isPipeMade = false := rfl

@[simp] theorem isCommandError_started (i : Nat) (argv : List String) (sin sout : Stream) (pid : Int) :
    (Event.started i argv sin sout pid).isCommandError = false := by
  simp [Event.isCommandError]

@[simp] theorem isPipeMade_started (i : Nat) (argv : List String) (sin sout : Stream) (pid : Int) :
    (Event.started i argv sin sout pid).isPipeMade = false := rfl

@[simp] theorem isCommandError_startFailed (i : Nat) (argv : List String) (sin sout : Stream) :
    (Event.startFailed i argv sin sout).isCommandError = false := by
  simp [Event.isCommandError]

@[simp] theorem isStarted_startFailed (i : Nat) (argv : List String) (sin sout : Stream) :
    (Event.startFailed i argv sin sout).isStarted = false := rfl

@[simp] theorem isPipeMade_startFailed (i : Nat) (argv : List String) (sin sout : Stream) :
    (Event.startFailed i argv sin sout).isPipeMade = false := rfl

@[simp] theorem isCommandError_closed (h : Handle) :
    (Event.closed h).isCommandError = false := by
  simp [Event.isCommandError]

@[simp] theorem isStarted_closed (h : Handle) :
    (Event.closed h).isStarted = false := rfl

@[simp] theorem isPipeMade_closed (h : Handle) :
    (Event.closed h).isPipeMade = false := rfl

@[simp] theorem isCommandError_printBg (pid : Int) :
    (Event.printBg pid).isCommandError = false := by
  simp [Event.isCommandError]

@[simp] theorem isStarted_printBg (pid : Int) :
    (Event.printBg pid).isStarted = false := rfl

@[simp] theorem isPipeMade_printBg (pid : Int) :
    (Event.printBg pid).isPipeMade = false := rfl

@[simp] theorem isCommandError_print (text : String) :
    (Event.print text).isCommandError = false := by
  simp [Event.isCommandError]

@[simp] theorem isStarted_print (text : String) :
    (Event.print text).isStarted = false := rfl

@[simp] theorem isPipeMade_print (text : String) :
    (Event.print text).isPipeMade = false := rfl

@[simp] theorem isCommandError_tcsetpgrp (pgid : Int) :
    (Event.tcsetpgrp pgid).isCommandError = false := by
  simp [Event.isCommandError]

@[simp] theorem isStarted_tcsetpgrp (pgid : Int) :
    (Event.tcsetpgrp pgid).isStarted = false := rfl

@[simp] theorem isPipeMade_tcsetpgrp (pgid : Int) :
    (Event.tcsetpgrp pgid).isPipeMade = false := rfl

@[simp] theorem isCommandError_waited (i : Nat) :
    (Event.waited i).isCommandError = false := by
  simp [Event.isCommandError]

@[simp] theorem isStarted_waited (i : Nat) :
    (Event.waited i).isStarted = false := rfl

@[simp] theorem isPipeMade_waited (i : Nat) :
    (Event.waited i).isPipeMade = false := rfl

@[simp] theorem isCommandError_goMonitor (stages : List Nat) (pgid : Int) :
    (Event.goMonitor stages pgid).isCommandError = false := by
  simp [Event.isCommandError]

@[simp] theorem isStarted_goMonitor (stages : List Nat) (pgid : Int) :
    (Event.goMonitor stages pgid).isStarted = false := rfl

@[simp] theorem isPipeMade_goMonitor (stages : List Nat) (pgid : Int) :
    (Event.goMonitor stages pgid).isPipeMade = false := rfl

@[simp] theorem isCommandError_kill (target : Int) (sig : Nat) :
    (Event.kill target sig).isCommandError = false := by
  simp [Event.isCommandError]

@[simp] theorem isStarted_kill (target : Int) (sig : Nat) :
    (Event.kill target sig).isStarted = false := rfl

@[simp] theorem isPipeMade_kill (target : Int) (sig : Nat) :
    (Event.kill target sig).isPipeMade = false := rfl

@[simp] theorem isStarted_started (i : Nat) (argv : List String) (sin sout : Stream) (pid : Int) :
    (Event.started i argv sin sout pid).isStarted = true := rfl

@[simp] theorem isCommandError_pipeMade (i : Nat) :
    (Event.pipeMade i).isCommandError = false := by
  simp [Event.isCommandError]

@[simp] theorem isStarted_pipeMade (i : Nat) : (Event.pipeMade i).isStarted = false := rfl

@[simp] theorem isPipeMade_pipeMade (i : Nat) : (Event.pipeMade i).isPipeMade = true := rfl

@[simp] theorem isCommandError_println (label : String) :
    (Event.println label).isCommandError = decide (label = "command error:") := by
  simp [Event.isCommandError]

@[simp] theorem isStarted_println (label : String) :
    (Event.println label).isStarted = false := rfl

@[simp] theorem isPipeMade_println (label : String) :
    (Event.println label).isPipeMade = false := rfl

@[simp] theorem filter_closed (df : List Handle) :
    (df.map Event.closed).filter (fun e => !e.isCommandError) = df.map Event.closed := by
  rw [List.filter_eq_self]
  intro e he
  obtain ⟨h, _, rfl⟩ := List.mem_map.1 he
  simp

theorem openStdin_events (os : OS) (i : Nat) (inFile : String) (background : Bool) :
    ∀ e ∈ (openStdin os i inFile background).2.1,
      e.isStarted = false ∧ e.isPipeMade = false ∧ e.isCommandError = false := by
  unfold openStdin
  split_ifs <;> simp [Event.isStarted, Event.isPipeMade, Event.isCommandError]

theorem openStdout_events (os : OS) (i : Nat) (outFile : String) (appendMode : Bool) :
    ∀ e ∈ (openStdout os i outFile appendMode).2.1,
      e.isStarted = false ∧ e.isPipeMade = false ∧ e.isCommandError = false := by
  unfold openStdout
  split_ifs <;> simp [Event.isStarted, Event.isPipeMade, Event.isCommandError]

theorem closed_events (df : List Handle) :
    ∀ e ∈ df.map Event.closed,
      e.isStarted = false ∧ e.isPipeMade = false ∧ e.isCommandError = false := by
  intro e he
  obtain ⟨h, _, rfl⟩ := List.mem_map.1 he
  simp [Event.isStarted, Event.isPipeMade, Event.isCommandError]

theorem filter_not_commandError (l : List Event) (h : ∀ e ∈ l, e.isCommandError = false) :
    l.filter (fun e => !e.isCommandError) = l := by
  rw [List.filter_eq_self]
  intro e he
  simp [h e he]

theorem stageStdin_events (background : Bool) (os : OS) (i : Nat) (inFile : String)
    (prev : Option Handle) :
    ∀ e ∈ (stageStdin background os i inFile prev).2.1, e.isStarted = false := by
  unfold stageStdin
  split_ifs
  · exact fun e he => (openStdin_events os i inFile background e he).1
  · simp

theorem stageStdout_events (n : Nat) (os : OS) (i : Nat) (outFile : String) (appendMode : Bool) :
    ∀ e ∈ (stageStdout n os i outFile appendMode).2.1, e.isStarted = false := by
  unfold stageStdout
  split_ifs
  · exact fun e he => (openStdout_events os i outFile appendMode e he).1
  · simp [Event.isStarted]
  · simp [Event.isStarted]

theorem closeIfSet_events (o : Option Handle) : ∀ e ∈ closeIfSet o, e.isStarted = false := by
  cases o <;> simp [closeIfSet, Event.isStarted]

theorem pipelineStage_started (n : Nat) (background : Bool) (os : OS) (i : Nat)
    (tokens : List String) (f : Frame) :
    ∀ e ∈ (pipelineStage n background os i tokens f).1.events, e.isStarted = true →
      e ∈ f.events ∨ (tokens ≠ [] ∧ ∃ argv sin sout pid, e = .started i argv sin sout pid) := by
  have h1 := stageStdin_events background os i (stageRedirection n i tokens).inFile f.prevReader
  have h2 := stageStdout_events n os i (stageRedirection n i tokens).outFile
    (stageRedirection n i tokens).appendMode
  have h3 := closeIfSet_events (stagePipe n i Handle.pipeWriter)
  have h4 := closeIfSet_events f.prevReader
  intro e he hs
  unfold pipelineStage at he
  simp only [] at he
  split at he
  · exact Or.inl he
  · rename_i hne
    have hne2 : tokens ≠ [] := by simpa using hne
    split at he
    · exact Or.inl he
    · split at he
      · rename_i heq
        rw [heq] at h1
        simp only [List.mem_append] at he
        rcases he with he | he
        · exact Or.inl he
        · have := h1 e he; simp_all
      · rename_i heq
        rw [heq] at h1
        split at he
        · rename_i heq2
          rw [heq2] at h2
          simp only [List.mem_append] at he
          rcases he with (he | he) | he
          · exact Or.inl he
          · have := h1 e he; simp_all
          · have := h2 e he; simp_all
        · rename_i heq2
          rw [heq2] at h2
          split at he
          · simp only [List.mem_append, List.mem_cons, List.mem_singleton, List.not_mem_nil, or_false] at he
            rcases he with ((he | he) | he) | he
            · exact Or.inl he
            · have := h1 e he; simp_all
            · have := h2 e he; simp_all
            · rcases he with he | he <;> simp [he, Event.isStarted] at hs
          · simp only [List.mem_append, List.mem_cons, List.mem_singleton, List.not_mem_nil, or_false] at he
            rcases he with ((((he | he) | he) | he) | he) | he
            · exact Or.inl he
            · have := h1 e he; simp_all
            · have := h2 e he; simp_all
            · exact Or.inr ⟨hne2, _, _, _, _, he⟩
            · have := h3 e he; simp_all
            · have := h4 e he; simp_all

/-- A stage that is started is not empty and, when it is the first or the last
stage, still names a command once its redirections are taken out. -/
theorem pipelineStage_started_clean (n : Nat) (background : Bool) (os : OS) (i : Nat)
    (tokens : List String) (f : Frame) :
    ∀ e ∈ (pipelineStage n background os i tokens f).1.events, e.isStarted = true →
      e ∈ f.events ∨ (tokens ≠ [] ∧
        ((i = 0 ∨ i = n - 1) → (parseRedirection tokens).clean ≠ []) ∧
        ∃ argv sin sout pid, e = .started i argv sin sout pid) := by
  intro e he hs
  by_cases hc : (i = 0 ∨ i = n - 1) ∧ (stageRedirection n i tokens).clean.length = 0
  · left
    unfold pipelineStage at he
    simp only [] at he
    rw [if_pos hc] at he
    split at he <;> exact he
  · rcases pipelineStage_started n background os i tokens f e he hs with h | ⟨h1, h2⟩
    · exact Or.inl h
    · refine Or.inr ⟨h1, ?_, h2⟩
      intro hedge hcl
      apply hc
      refine ⟨hedge, ?_⟩
      simp [stageRedirection, hedge, hcl]

theorem pipelineLoop_started (n : Nat) (background : Bool) (os : OS) :
    ∀ (rest : List (List String)) (i : Nat) (f : Frame),
      ∀ e ∈ (pipelineLoop n background os i rest f).1.events, e.isStarted = true →
        e ∈ f.events ∨ ∃ k tokens argv sin sout pid,
          rest[k]? = some tokens ∧ tokens ≠ [] ∧
          ((i + k = 0 ∨ i + k = n - 1) → (parseRedirection tokens).clean ≠ []) ∧
          e = .started (i + k) argv sin sout pid := by
  intro rest
  induction rest with
  | nil => intro i f e he _; exact Or.inl he
  | cons tokens rest ih =>
    intro i f e he hs
    have hst := pipelineStage_started_clean n background os i tokens f
    rcases hp : pipelineStage n background os i tokens f with ⟨f1, flag⟩
    rw [hp] at hst
    have here : e ∈ f1.events → e ∈ f.events ∨ ∃ k tokens2 argv sin sout pid,
        (tokens :: rest)[k]? = some tokens2 ∧ tokens2 ≠ [] ∧
          ((i + k = 0 ∨ i + k = n - 1) → (parseRedirection tokens2).clean ≠ []) ∧
          e = .started (i + k) argv sin sout pid := by
      intro h1
      rcases hst e h1 hs with h2 | ⟨h2, hcl, argv, sin, sout, pid, h3⟩
      · exact Or.inl h2
      · exact Or.inr ⟨0, tokens, argv, sin, sout, pid, by simp, h2, by simpa using hcl,
          by simpa using h3⟩
    cases flag with
    | false =>
      simp only [pipelineLoop, hp] at he
      exact here he
    | true =>
      simp only [pipelineLoop, hp] at he
      rcases ih (i + 1) f1 e he hs with
        h1 | ⟨k, tokens2, argv, sin, sout, pid, h1, h2, hcl, h3⟩
      · exact here h1
      · refine Or.inr ⟨k + 1, tokens2, argv, sin, sout, pid, by simpa using h1, h2, ?_, ?_⟩
        · intro hedge
          apply hcl
          omega
        · rw [h3]
          congr 1
          omega

/-- The events of a launch are those of the loop, then events that start
nothing. -/
theorem ExecutePipelineWithBackground_started (commands : List (List String))
    (background : Bool) (cmdStr : String) (os : OS) (s : Shell) :
    ∀ e ∈ (ExecutePipelineWithBackground commands background cmdStr os s).events,
      e.isStarted = true →
        e ∈ (pipelineLoop commands.length background os 0 commands Frame.empty).1.events := by
  intro e he hs
  unfold ExecutePipelineWithBackground at he
  simp only [] at he
  split at he
  · simp [leave] at he
  · split at he
    · rename_i heq
      rw [heq]
      simp only [leave, List.mem_append, List.mem_map] at he
      rcases he with he | ⟨h, _, rfl⟩
      · exact he
      · simp [Event.isStarted] at hs
    · rename_i heq
      rw [heq]
      split at he
      · simp only [leave, List.mem_append, List.mem_map] at he
        rcases he with he | ⟨h, _, rfl⟩
        · exact he
        · simp [Event.isStarted] at hs
      · split at he
        · simp only [leave, List.mem_append, List.mem_map, List.mem_cons, List.mem_singleton,
            List.not_mem_nil, or_false] at he
          rcases he with (he | he | he) | ⟨h, _, rfl⟩
          · exact he
          · simp [he, Event.isStarted] at hs
          · simp [he, Event.isStarted] at hs
          · simp [Event.isStarted] at hs
        · simp only [leave, List.mem_append, List.mem_map, List.mem_cons, List.mem_singleton,
            List.not_mem_nil, or_false] at he
          rcases he with (((he | he) | ⟨c, _, rfl⟩) | he) | ⟨h, _, rfl⟩
          · exact he
          · simp [he, Event.isStarted] at hs
          · simp [Event.isStarted] at hs
          · simp [he, Event.isStarted] at hs
          · simp [Event.isStarted] at hs

/-- **C1.** A foreground launch that begins with no foreground group set ends
with none set, whatever the operating system answers to each call (a redirect
file that cannot be opened, a failed pipe, a stage that does not start, a
failing `Wait`, or success throughout): both for a single command and for a
pipeline `GetCurrentFgPgid()` is `-1` afterwards. The single-command launch
always returns; the value also holds where the pipeline launch panics. -/
theorem foreground_restored (tokens : List String) (commands : List (List String))
    (cmdStr : String) (os : OS) (s : Shell) (h : s.currentFgPgid = -1) :
    GetCurrentFgPgid (ExecuteWithBackground tokens false cmdStr os s).shell = -1 ∧
    (ExecuteWithBackground tokens false cmdStr os s).outcome = .returned ∧
    GetCurrentFgPgid (ExecutePipelineWithBackground commands false cmdStr os s).shell = -1 := by
  refine ⟨?_, ?_, ?_⟩
  · unfold ExecuteWithBackground
    simp only []
    repeat' split
    all_goals simp_all [leave, GetCurrentFgPgid, setCurrentFgPgid]
  · unfold ExecuteWithBackground
    simp only []
    repeat' split
    all_goals simp_all [leave]
  · unfold ExecutePipelineWithBackground
    simp only []
    repeat' split
    all_goals simp_all [leave, GetCurrentFgPgid, setCurrentFgPgid]

/-- Witness for C1: `cat < in.txt` and `echo hi | wc -l` in the foreground with
every call succeeding. -/
theorem foreground_restored_witness :
    Shell.init.currentFgPgid = -1 ∧
    GetCurrentFgPgid
      (ExecuteWithBackground ["cat", "<", "in.txt"] false "cat < in.txt" OS.allOk Shell.init).shell
        = -1 ∧
    GetCurrentFgPgid
      (ExecutePipelineWithBackground [["echo", "hi"], ["wc", "-l"]] false "echo hi | wc -l"
        OS.allOk Shell.init).shell = -1 :=
  ⟨by decide,
   (foreground_restored ["cat", "<", "in.txt"] [["echo", "hi"], ["wc", "-l"]] "cat < in.txt"
      OS.allOk Shell.init (by decide)).1,
   (foreground_restored ["cat", "<", "in.txt"] [["echo", "hi"], ["wc", "-l"]] "echo hi | wc -l"
      OS.allOk Shell.init (by decide)).2.2⟩

/-- **C4 (counterexample).** A pipeline with an empty token list is not
rejected: with the empty list in last, first or interior position the launch
still starts the other stages. -/
theorem empty_stage_not_rejected :
    ([] : List String) ∈ [["ls"], []] ∧
    Event.started 0 ["ls"] .inherited (.file (.pipeWriter 0)) 100 ∈
      (ExecutePipelineWithBackground [["ls"], []] false "ls |" OS.allOk Shell.init).events ∧
    Event.started 1 ["wc"] .nilFile .inherited 101 ∈
      (ExecutePipelineWithBackground [[], ["wc"]] false "| wc" OS.allOk Shell.init).events ∧
    Event.started 2 ["wc"] (.file (.pipeReader 0)) .inherited 102 ∈
      (ExecutePipelineWithBackground [["ls"], [], ["wc"]] false "ls | | wc" OS.allOk
        Shell.init).events := by
  decide

/-- **C4 (amended).** No process is started for a stage whose token list is
empty: every started stage is a position of `commands` that holds a non-empty
token list. An empty stage is skipped, the frame left as it is and the loop
going on with the next stage; and when every stage is empty no process is
started at all. -/
theorem empty_stage_skipped (commands : List (List String)) (background : Bool)
    (cmdStr : String) (os : OS) (s : Shell) :
    (∀ (i : Nat) (argv : List String) (sin sout : Stream) (pid : Int),
      Event.started i argv sin sout pid ∈
          (ExecutePipelineWithBackground commands background cmdStr os s).events →
        ∃ tokens, commands[i]? = some tokens ∧ tokens ≠ []) ∧
    (∀ (n i : Nat) (f : Frame), pipelineStage n background os i [] f = (f, true)) ∧
    ((∀ tokens ∈ commands, tokens = []) →
      ∀ e ∈ (ExecutePipelineWithBackground commands background cmdStr os s).events,
        e.isStarted = false) := by
  have key : ∀ e ∈ (ExecutePipelineWithBackground commands background cmdStr os s).events,
      e.isStarted = true → ∃ k tokens argv sin sout pid,
        commands[k]? = some tokens ∧ tokens ≠ [] ∧ e = .started k argv sin sout pid := by
    intro e he hs
    have h1 := ExecutePipelineWithBackground_started commands background cmdStr os s e he hs
    rcases pipelineLoop_started commands.length background os commands 0 Frame.empty e h1 hs with
      h2 | ⟨k, tokens, argv, sin, sout, pid, h2, h3, _, h4⟩
    · simp [Frame.empty] at h2
    · exact ⟨k, tokens, argv, sin, sout, pid, h2, h3, by simpa using h4⟩
  refine ⟨?_, ?_, ?_⟩
  · intro i argv sin sout pid he
    obtain ⟨k, tokens, _, _, _, _, h2, h3, h4⟩ := key _ he rfl
    injection h4 with hk
    subst hk
    exact ⟨tokens, h2, h3⟩
  · intro n i f
    simp [pipelineStage]
  · intro hall e he
    by_contra hs
    obtain ⟨k, tokens, _, _, _, _, h2, h3, _⟩ := key e he (by simpa using hs)
    exact h3 (hall tokens (List.getElem?_mem h2))

/-- **C3 (evaluation of the code).** Aborted launches that leave pipe ends
open. In `ls | wc` with `ls` failing to start, the launch returns after the
events shown and both ends of pipe 0 stay open; with `wc` failing to start the
read end of pipe 0 stays open. In `cat < in.txt | wc | sort > o`, when `wc`
fails to start, when `o` cannot be opened or when the second pipe cannot be
made, the deferred close of `in.txt` runs but pipe ends stay open. -/
theorem abort_leaves_pipe_ends_open :
    (ExecutePipelineWithBackground [["ls"], ["wc"]] false "ls | wc" (OS.startFails 0)
        Shell.init).events =
      [.pipeMade 0, .startFailed 0 ["ls"] .inherited (.file (.pipeWriter 0)),
       .println "start error:"] ∧
    (ExecutePipelineWithBackground [["ls"], ["wc"]] false "ls | wc" (OS.startFails 0)
        Shell.init).outcome = .returned ∧
    openPipeEnds (ExecutePipelineWithBackground [["ls"], ["wc"]] false "ls | wc"
        (OS.startFails 0) Shell.init).events = [.pipeReader 0, .pipeWriter 0] ∧
    openPipeEnds (ExecutePipelineWithBackground [["ls"], ["wc"]] false "ls | wc"
        (OS.startFails 1) Shell.init).events = [.pipeReader 0] ∧
    openHandles (ExecutePipelineWithBackground
        [["cat", "<", "in.txt"], ["wc"], ["sort", ">", "o"]] false "cat < in.txt | wc | sort > o"
        (OS.startFails 1) Shell.init).events = [.pipeReader 0, .pipeReader 1, .pipeWriter 1] ∧
    openHandles (ExecutePipelineWithBackground
        [["cat", "<", "in.txt"], ["wc"], ["sort", ">", "o"]] false "cat < in.txt | wc | sort > o"
        (OS.openOutFails 2) Shell.init).events = [.pipeReader 1] ∧
    openHandles (ExecutePipelineWithBackground
        [["cat", "<", "in.txt"], ["wc"], ["sort", ">", "o"]] false "cat < in.txt | wc | sort > o"
        (OS.pipeFails 1) Shell.init).events = [.pipeReader 0] := by
  decide

/-- **C10 (evaluation of the code).** Two inputs on which the one-stage
pipeline does not do what the single command does under the same answers of the
operating system. On the empty token list the single-command launch returns
while the pipeline launch skips the stage and panics at `cmds[0]`. And when the
foreground `Wait` fails with an error that is no exit error the single-command
launch prints `command error:` while the pipeline launch, which drops the
result of `Wait`, prints nothing. -/
theorem single_stage_pipeline_differs :
    (ExecuteWithBackground [] false "" OS.allOk Shell.init).outcome = .returned ∧
    (ExecutePipelineWithBackground [[]] false "" OS.allOk Shell.init).outcome = .panicked ∧
    (ExecuteWithBackground ["ls"] false "ls" OS.waitFails Shell.init).events =
      [.started 0 ["ls"] .inherited .inherited 100, .tcsetpgrp 100, .waited 0, .tcsetpgrp 1,
       .println "command error:"] ∧
    (ExecutePipelineWithBackground [["ls"]] false "ls" OS.waitFails Shell.init).events =
      [.started 0 ["ls"] .inherited .inherited 100, .tcsetpgrp 100, .waited 0,
       .tcsetpgrp 1] := by
  decide

/-- Where the two launches agree: for a non-empty token list the one-stage
pipeline makes no pipe and ends with the same package-level variables and the
same outcome as the single command, and its events are those of the single
command without the `command error:` message. -/
theorem one_stage_pipeline_agreement (tokens : List String) (background : Bool)
    (cmdStr : String) (os : OS) (s : Shell) (hne : tokens ≠ []) :
    (ExecutePipelineWithBackground [tokens] background cmdStr os s).shell =
      (ExecuteWithBackground tokens background cmdStr os s).shell ∧
    (ExecutePipelineWithBackground [tokens] background cmdStr os s).outcome =
      (ExecuteWithBackground tokens background cmdStr os s).outcome ∧
    (ExecutePipelineWithBackground [tokens] background cmdStr os s).outcome = .returned ∧
    (ExecutePipelineWithBackground [tokens] background cmdStr os s).events =
      (ExecuteWithBackground tokens background cmdStr os s).events.filter
        (fun e => !e.isCommandError) ∧
    (background = true ∨ os.wait 0 ≠ .otherError →
      (ExecutePipelineWithBackground [tokens] background cmdStr os s).events =
        (ExecuteWithBackground tokens background cmdStr os s).events) ∧
    (∀ e ∈ (ExecutePipelineWithBackground [tokens] background cmdStr os s).events,
      e.isPipeMade = false) := by
  have hlen : tokens.length ≠ 0 := by simpa using hne
  have e1 := openStdin_events os 0 (parseRedirection tokens).inFile background
  have e2 := openStdout_events os 0 (parseRedirection tokens).outFile
    (parseRedirection tokens).appendMode
  unfold ExecutePipelineWithBackground ExecuteWithBackground
  simp only [pipelineLoop, pipelineStage, stageRedirection, stageStdin, stageStdout, stagePipe,
    List.length_singleton, hlen, if_false, Nat.sub_self, true_or, if_true, true_and, one_ne_zero,
    Frame.empty]
  by_cases hc : (parseRedirection tokens).clean.length = 0
  · simp [hc, leave]
  · simp only [hc, if_false]
    rcases h1 : openStdin os 0 (parseRedirection tokens).inFile background with ⟨_ | sin, ev1, df1⟩
    · rw [h1] at e1
      have f1 := filter_not_commandError ev1 (fun e he => (e1 e he).2.2)
      have p1 : ∀ e ∈ ev1, e.isPipeMade = false := fun e he => (e1 e he).2.1
      simpa [leave, f1] using p1
    · rw [h1] at e1
      have f1 := filter_not_commandError ev1 (fun e he => (e1 e he).2.2)
      have p1 : ∀ e ∈ ev1, e.isPipeMade = false := fun e he => (e1 e he).2.1
      simp only []
      rcases h2 : openStdout os 0 (parseRedirection tokens).outFile
        (parseRedirection tokens).appendMode with ⟨_ | sout, ev2, df2⟩
      · rw [h2] at e2
        have f2 := filter_not_commandError ev2 (fun e he => (e2 e he).2.2)
        have p2 : ∀ e ∈ ev2, e.isPipeMade = false := fun e he => (e2 e he).2.1
        simpa [leave, f1, f2, or_imp, forall_and] using And.intro p1 p2
      · rw [h2] at e2
        have f2 := filter_not_commandError ev2 (fun e he => (e2 e he).2.2)
        have p2 : ∀ e ∈ ev2, e.isPipeMade = false := fun e he => (e2 e he).2.1
        simp only []
        rcases h3 : os.start 0 with _ | pid
        · simpa [leave, f1, f2, or_imp, forall_and, List.filter] using And.intro p1 p2
        · cases background
          · by_cases hw : os.wait 0 = .otherError
            · simpa [leave, f1, f2, or_imp, forall_and, List.filter, hw, closeIfSet,
                setCurrentFgPgid] using And.intro p1 p2
            · simpa [leave, f1, f2, or_imp, forall_and, List.filter, hw, closeIfSet,
                setCurrentFgPgid] using And.intro p1 p2
          · simpa [leave, f1, f2, or_imp, forall_and, List.filter, closeIfSet] using And.intro p1 p2

theorem pipeEnds_openStdin (os : OS) (i : Nat) (inFile : String) (background : Bool)
    (held : List Handle) :
    (openStdin os i inFile background).2.1.foldl pipeEndsStep held = held := by
  unfold openStdin
  split_ifs <;> simp [pipeEndsStep]

theorem pipeEnds_openStdout (os : OS) (i : Nat) (outFile : String) (appendMode : Bool)
    (held : List Handle) :
    (openStdout os i outFile appendMode).2.1.foldl pipeEndsStep held = held := by
  unfold openStdout
  split_ifs <;> simp [pipeEndsStep]

theorem openStdin_ok (os : OS) (i : Nat) (inFile : String) (background : Bool)
    (h : os.openIn i = true) :
    ∃ sin ev df, openStdin os i inFile background = (some sin, ev, df) := by
  unfold openStdin
  split_ifs <;> simp

theorem openStdout_ok (os : OS) (i : Nat) (outFile : String) (appendMode : Bool)
    (h : os.openOut i = true) :
    ∃ sout ev df, openStdout os i outFile appendMode = (some sout, ev, df) := by
  unfold openStdout
  split_ifs <;> simp

theorem parseRedirection_clean_ne_nil (tokens : List String)
    (h : (parseRedirection tokens).clean ≠ []) : tokens ≠ [] := by
  rintro rfl
  exact h (by decide)

/-- A stage that is not the last one, with every call succeeding. -/
theorem pipelineStage_not_last (n : Nat) (background : Bool) (os : OS) (i : Nat)
    (tokens : List String) (f : Frame) (pid : Int)
    (hi : i + 1 < n) (hne : tokens ≠ [])
    (hclean : i = 0 → (parseRedirection tokens).clean ≠ [])
    (hin : os.openIn i = true) (hpipe : os.pipe i = true) (hstart : os.start i = some pid) :
    ∃ sin ev1 df1,
      stageStdin background os i (stageRedirection n i tokens).inFile f.prevReader =
        (some sin, ev1, df1) ∧
      pipelineStage n background os i tokens f =
        ({ cmds := f.cmds ++ [(i, pid)]
           prevReader := some (.pipeReader i)
           defers := df1 ++ f.defers
           events := f.events ++ ev1 ++
             [.pipeMade i, .started i (stageRedirection n i tokens).clean sin
               (.file (.pipeWriter i)) pid, .closed (.pipeWriter i)] ++
             closeIfSet f.prevReader }, true) := by
  have hlen : tokens.length ≠ 0 := by simpa using hne
  have hlast : i ≠ n - 1 := by omega
  have hsin : ∃ sin ev1 df1,
      stageStdin background os i (stageRedirection n i tokens).inFile f.prevReader =
        (some sin, ev1, df1) := by
    unfold stageStdin
    split_ifs
    · exact openStdin_ok os i _ background hin
    · exact ⟨_, _, _, rfl⟩
  obtain ⟨sin, ev1, df1, h1⟩ := hsin
  refine ⟨sin, ev1, df1, h1, ?_⟩
  have hc : ¬ ((i = 0 ∨ i = n - 1) ∧ (stageRedirection n i tokens).clean.length = 0) := by
    rintro ⟨h0 | h0, h2⟩
    · have := hclean h0
      simp [stageRedirection, h0] at h2
      exact this h2
    · exact hlast h0
  unfold pipelineStage
  simp only []
  rw [if_neg hlen, if_neg hc, h1]
  simp [stageStdout, hlast, hpipe, hstart, stagePipe, closeIfSet]

/-- The last stage of a pipeline of at least two, with every call succeeding. -/
theorem pipelineStage_last (n : Nat) (background : Bool) (os : OS) (i : Nat)
    (tokens : List String) (f : Frame) (pid : Int)
    (hi : i + 1 = n) (h0 : 0 < i)
    (hclean : (parseRedirection tokens).clean ≠ [])
    (hout : os.openOut i = true) (hstart : os.start i = some pid) :
    ∃ sout ev2 df2,
      openStdout os i (parseRedirection tokens).outFile (parseRedirection tokens).appendMode =
        (some sout, ev2, df2) ∧
      pipelineStage n background os i tokens f =
        ({ cmds := f.cmds ++ [(i, pid)]
           prevReader := none
           defers := df2 ++ f.defers
           events := f.events ++ ev2 ++
             [.started i (parseRedirection tokens).clean (streamOf f.prevReader) sout pid] ++
             closeIfSet f.prevReader }, true) := by
  have hne := parseRedirection_clean_ne_nil tokens hclean
  have hlen : tokens.length ≠ 0 := by simpa using hne
  have hlast : i = n - 1 := by omega
  have hi0 : i ≠ 0 := by omega
  obtain ⟨sout, ev2, df2, h2⟩ := openStdout_ok os i (parseRedirection tokens).outFile
    (parseRedirection tokens).appendMode hout
  refine ⟨sout, ev2, df2, h2, ?_⟩
  have hr : stageRedirection n i tokens = parseRedirection tokens := by
    simp [stageRedirection, hlast]
  have hc : ¬ ((i = 0 ∨ i = n - 1) ∧ (stageRedirection n i tokens).clean.length = 0) := by
    rintro ⟨_, h3⟩
    rw [hr] at h3
    exact hclean (by simpa using h3)
  have hso : stageStdout n os i (parseRedirection tokens).outFile
      (parseRedirection tokens).appendMode = (some sout, ev2, df2) := by
    simp only [stageStdout, ← hlast, if_true, h2]
  have hsi : stageStdin background os i (stageRedirection n i tokens).inFile f.prevReader =
      (some (streamOf f.prevReader), [], []) := by
    simp [stageStdin, hi0]
  unfold pipelineStage
  simp only []
  rw [if_neg hlen, if_neg hc, hsi]
  simp only [hr, hso, hstart, stagePipe, ← hlast, if_true, closeIfSet, List.append_nil,
    List.nil_append]

theorem writeEndClosedAfterStart_append {j : Nat} {events : List Event} (more : List Event)
    (h : writeEndClosedAfterStart j events) : writeEndClosedAfterStart j (events ++ more) := by
  obtain ⟨b, a, argv, sin, pid, rfl⟩ := h
  exact ⟨b, a ++ more, argv, sin, pid, by simp⟩

theorem readEndClosedAfterNextStart_append {n j : Nat} {events : List Event}
    (more : List Event) (h : readEndClosedAfterNextStart n j events) :
    readEndClosedAfterNextStart n j (events ++ more) := by
  obtain ⟨b, a, argv, sout, pid, rfl⟩ := h
  exact ⟨b, a ++ more, argv, sout, pid, by simp⟩

theorem openPipeEnds_append (a b : List Event) :
    openPipeEnds (a ++ b) = b.foldl pipeEndsStep (openPipeEnds a) := by
  simp [openPipeEnds, List.foldl_append]

theorem stageStdin_pipeEnds (background : Bool) (os : OS) (i : Nat) (inFile : String)
    (prev : Option Handle) (held : List Handle) :
    (stageStdin background os i inFile prev).2.1.foldl pipeEndsStep held = held := by
  unfold stageStdin
  split_ifs
  · exact pipeEnds_openStdin os i inFile background held
  · rfl

theorem stageStdin_pipes (background : Bool) (os : OS) (i : Nat) (inFile : String)
    (prev : Option Handle) :
    (stageStdin background os i inFile prev).2.1.filter Event.isPipeMade = [] := by
  rw [List.filter_eq_nil_iff]
  intro e he
  unfold stageStdin at he
  split_ifs at he
  · simp [(openStdin_events os i inFile background e he).2.1]
  · simp at he

theorem openStdout_pipes (os : OS) (i : Nat) (outFile : String) (appendMode : Bool) :
    (openStdout os i outFile appendMode).2.1.filter Event.isPipeMade = [] := by
  rw [List.filter_eq_nil_iff]
  intro e he
  simp [(openStdout_events os i outFile appendMode e he).2.1]

/-- A stage that is not the last keeps the loop invariant. -/
theorem stagesStarted_step (n : Nat) (background : Bool) (os : OS) (i : Nat)
    (tokens : List String) (f : Frame) (pid : Int)
    (inv : StagesStarted n i f)
    (hi : i + 1 < n) (hne : tokens ≠ [])
    (hclean : i = 0 → (parseRedirection tokens).clean ≠ [])
    (hin : os.openIn i = true) (hpipe : os.pipe i = true) (hstart : os.start i = some pid) :
    ∃ f2, pipelineStage n background os i tokens f = (f2, true) ∧ StagesStarted n (i + 1) f2 := by
  obtain ⟨sin, ev1, df1, h1, hst⟩ :=
    pipelineStage_not_last n background os i tokens f pid hi hne hclean hin hpipe hstart
  refine ⟨_, hst, ?_⟩
  have hev1 : ev1 = (stageStdin background os i (stageRedirection n i tokens).inFile
      f.prevReader).2.1 := by rw [h1]
  have hin1 : i ≠ n := by omega
  have hin2 : i + 1 ≠ n := by omega
  constructor
  · simp [inv.cmds, List.range_succ]
  · simp [hin2]
  · simp only [openPipeEnds_append, inv.held, hev1, stageStdin_pipeEnds, inv.prevReader]
    by_cases h0 : i = 0
    · have h1n : ¬ 1 = n := by omega
      simp [h0, h1n, pipeEndsStep, closeIfSet]
    · have : i - 1 ≠ i := by omega
      simp [h0, hin1, hin2, pipeEndsStep, closeIfSet, this]
  · have hmin1 : min i (n - 1) = i := by omega
    have hmin2 : min (i + 1) (n - 1) = i + 1 := by omega
    have hcl : (closeIfSet f.prevReader).filter Event.isPipeMade = [] := by
      cases f.prevReader <;> simp [closeIfSet]
    simp [List.filter_append, inv.pipes, hev1, stageStdin_pipes, hmin1, hmin2, List.range_succ,
      hcl, List.filter]
  · intro j hj hjn
    by_cases hji : j < i
    · have := inv.writeEnds j hji hjn
      simpa [List.append_assoc] using writeEndClosedAfterStart_append
        (ev1 ++ ([.pipeMade i, .started i (stageRedirection n i tokens).clean sin
          (.file (.pipeWriter i)) pid, .closed (.pipeWriter i)] ++ closeIfSet f.prevReader)) this
    · have hje : j = i := by omega
      subst hje
      exact ⟨f.events ++ ev1 ++ [.pipeMade j], closeIfSet f.prevReader,
        (stageRedirection n j tokens).clean, sin, pid, by simp⟩
  · intro j hj
    by_cases hji : j + 1 < i
    · have := inv.readEnds j hji
      simpa [List.append_assoc] using readEndClosedAfterNextStart_append
        (ev1 ++ ([.pipeMade i, .started i (stageRedirection n i tokens).clean sin
          (.file (.pipeWriter i)) pid, .closed (.pipeWriter i)] ++ closeIfSet f.prevReader)) this
    · have hje : i = j + 1 := by omega
      subst hje
      have hprev := inv.prevReader
      simp only [Nat.add_one_ne_zero, hin1, or_self, if_false, Nat.add_sub_cancel] at hprev
      simp only [stageStdin, Nat.add_one_ne_zero, if_false, hprev, streamOf, Prod.mk.injEq,
        Option.some.injEq] at h1
      obtain ⟨rfl, rfl, rfl⟩ := h1
      refine ⟨f.events ++ [.pipeMade (j + 1)], [], (stageRedirection n (j + 1) tokens).clean,
        .file (.pipeWriter (j + 1)), pid, ?_⟩
      have : j + 2 < n := by omega
      simp [hprev, closeIfSet, this]

/-- The last stage establishes the invariant of the finished loop. -/
theorem stagesStarted_last (n : Nat) (background : Bool) (os : OS) (i : Nat)
    (tokens : List String) (f : Frame) (pid : Int)
    (inv : StagesStarted n i f)
    (hi : i + 1 = n) (h0 : 0 < i)
    (hclean : (parseRedirection tokens).clean ≠ [])
    (hout : os.openOut i = true) (hstart : os.start i = some pid) :
    ∃ f2, pipelineStage n background os i tokens f = (f2, true) ∧ StagesStarted n (i + 1) f2 := by
  obtain ⟨sout, ev2, df2, h2, hst⟩ :=
    pipelineStage_last n background os i tokens f pid hi h0 hclean hout hstart
  refine ⟨_, hst, ?_⟩
  have hev2 : ev2 = (openStdout os i (parseRedirection tokens).outFile
      (parseRedirection tokens).appendMode).2.1 := by rw [h2]
  have hi0 : i ≠ 0 := by omega
  have hin : i ≠ n := by omega
  have hprev := inv.prevReader
  simp only [hi0, hin, or_self, if_false] at hprev
  constructor
  · simp [inv.cmds, List.range_succ]
  · simp [hi]
  · simp only [openPipeEnds_append, inv.held, hev2, pipeEnds_openStdout, hprev]
    simp [hi0, hin, hi, pipeEndsStep, closeIfSet]
  · have hmin1 : min i (n - 1) = i := by omega
    have hmin2 : min (i + 1) (n - 1) = i := by omega
    simp [List.filter_append, inv.pipes, hev2, openStdout_pipes, hmin1, hmin2, hprev,
      closeIfSet, List.filter]
  · intro j _ hjn
    have := inv.writeEnds j (by omega) hjn
    simpa [List.append_assoc] using writeEndClosedAfterStart_append
      (ev2 ++ ([.started i (parseRedirection tokens).clean (streamOf f.prevReader) sout pid] ++
        closeIfSet f.prevReader)) this
  · intro j hj
    by_cases hji : j + 1 < i
    · have := inv.readEnds j hji
      simpa [List.append_assoc] using readEndClosedAfterNextStart_append
        (ev2 ++ ([.started i (parseRedirection tokens).clean (streamOf f.prevReader) sout pid] ++
          closeIfSet f.prevReader)) this
    · have hje : i = j + 1 := by omega
      subst hje
      simp only [Nat.add_sub_cancel] at hprev
      refine ⟨f.events ++ ev2, [], (parseRedirection tokens).clean, sout, pid, ?_⟩
      have : ¬ j + 2 < n := by omega
      simp [hprev, closeIfSet, streamOf, this]

/-- With every call succeeding and every stage naming a command, the loop
starts all stages and ends in the invariant of the finished loop. -/
theorem pipelineLoop_all_started (n : Nat) (background : Bool) (os : OS) (hn : 2 ≤ n)
    (hin : ∀ i, i < n → os.openIn i = true) (hout : ∀ i, i < n → os.openOut i = true)
    (hpipe : ∀ i, i < n → os.pipe i = true)
    (hstart : ∀ i, i < n → (os.start i).isSome = true) :
    ∀ (rest : List (List String)) (i : Nat) (f : Frame),
      i + rest.length = n → StagesStarted n i f →
      (∀ (k : Nat) (tokens : List String), rest[k]? = some tokens →
        tokens ≠ [] ∧ ((i + k = 0 ∨ i + k + 1 = n) → (parseRedirection tokens).clean ≠ [])) →
      ∃ f2, pipelineLoop n background os i rest f = (f2, true) ∧ StagesStarted n n f2 := by
  intro rest
  induction rest with
  | nil =>
    intro i f hi inv _
    have : i = n := by simpa using hi
    subst this
    exact ⟨f, rfl, inv⟩
  | cons tokens rest ih =>
    intro i f hi inv hc
    simp only [List.length_cons] at hi
    have hlt : i < n := by omega
    obtain ⟨pid, hpid⟩ := Option.isSome_iff_exists.1 (hstart i hlt)
    obtain ⟨hne, hclean⟩ := hc 0 tokens (by simp)
    have hstep : ∃ f2, pipelineStage n background os i tokens f = (f2, true) ∧
        StagesStarted n (i + 1) f2 := by
      by_cases hl : i + 1 = n
      · exact stagesStarted_last n background os i tokens f pid inv hl (by omega)
          (hclean (Or.inr (by omega))) (hout i hlt) hpid
      · exact stagesStarted_step n background os i tokens f pid inv (by omega) hne
          (fun h0 => hclean (Or.inl (by omega))) (hin i hlt) (hpipe i hlt) hpid
    obtain ⟨f1, hf1, inv1⟩ := hstep
    have hrest : ∀ (k : Nat) (tokens2 : List String), rest[k]? = some tokens2 →
        tokens2 ≠ [] ∧
          ((i + 1 + k = 0 ∨ i + 1 + k + 1 = n) → (parseRedirection tokens2).clean ≠ []) := by
      intro k tokens2 hk
      obtain ⟨h1, h2⟩ := hc (k + 1) tokens2 (by simpa using hk)
      refine ⟨h1, fun h3 => h2 ?_⟩
      omega
    obtain ⟨f2, hf2, inv2⟩ := ih (i + 1) f1 (by omega) inv1 hrest
    exact ⟨f2, by simp only [pipelineLoop, hf1, hf2], inv2⟩

theorem frame_empty_stagesStarted (n : Nat) : StagesStarted n 0 Frame.empty := by
  constructor <;> simp [Frame.empty, openPipeEnds]

theorem pipeEnds_nil_of_no_pipe (l : List Event) (h : ∀ e ∈ l, e.isPipeMade = false) :
    l.foldl pipeEndsStep [] = [] := by
  induction l with
  | nil => rfl
  | cons e l ih =>
    have he := h e (by simp)
    have hl : ∀ x ∈ l, x.isPipeMade = false := fun x hx => h x (by simp [hx])
    cases e <;> simp_all [pipeEndsStep]

/-- The loop of a pipeline of at least two stages, all of which name a command,
with every call succeeding: when the loop is over every stage has been started
in order and no pipe end is held open. -/
theorem pipelineLoop_closes_every_pipe_end (commands : List (List String)) (background : Bool)
    (cmdStr : String) (os : OS) (s : Shell)
    (hN : 2 ≤ commands.length)
    (hne : ∀ tokens ∈ commands, tokens ≠ [])
    (hfirst : ∀ tokens, commands.head? = some tokens → (parseRedirection tokens).clean ≠ [])
    (hlast : ∀ tokens, commands.getLast? = some tokens → (parseRedirection tokens).clean ≠ [])
    (hin : ∀ i, i < commands.length → os.openIn i = true)
    (hout : ∀ i, i < commands.length → os.openOut i = true)
    (hpipe : ∀ i, i < commands.length → os.pipe i = true)
    (hstart : ∀ i, i < commands.length → (os.start i).isSome = true) :
    (pipelineLoop commands.length background os 0 commands Frame.empty).2 = true ∧
    (pipelineLoop commands.length background os 0 commands Frame.empty).1.cmds.map Prod.fst =
      List.range commands.length ∧
    openPipeEnds (pipelineLoop commands.length background os 0 commands Frame.empty).1.events
      = [] ∧
    (pipelineLoop commands.length background os 0 commands Frame.empty).1.events.filter
      Event.isPipeMade = (List.range (commands.length - 1)).map Event.pipeMade ∧
    (∀ j, j + 1 < commands.length →
      writeEndClosedAfterStart j
        (pipelineLoop commands.length background os 0 commands Frame.empty).1.events ∧
      readEndClosedAfterNextStart commands.length j
        (pipelineLoop commands.length background os 0 commands Frame.empty).1.events) ∧
    openPipeEnds (ExecutePipelineWithBackground commands background cmdStr os s).events = [] ∧
    (ExecutePipelineWithBackground commands background cmdStr os s).outcome = .returned := by
  have hc : ∀ (k : Nat) (tokens : List String), commands[k]? = some tokens →
      tokens ≠ [] ∧ ((0 + k = 0 ∨ 0 + k + 1 = commands.length) →
        (parseRedirection tokens).clean ≠ []) := by
    intro k tokens hk
    refine ⟨hne tokens (List.getElem?_mem hk), ?_⟩
    rintro (h | h)
    · apply hfirst
      rw [List.head?_eq_getElem?]
      have : k = 0 := by omega
      rw [← this]; exact hk
    · apply hlast
      rw [List.getLast?_eq_getElem?]
      have : commands.length - 1 = k := by omega
      rw [this]; exact hk
  obtain ⟨f, hf, inv⟩ := pipelineLoop_all_started commands.length background os hN hin hout hpipe
    hstart commands 0 Frame.empty (by simp) (frame_empty_stagesStarted _) hc
  have hheld := inv.held
  have hpipes := inv.pipes
  simp only [or_true, if_true] at hheld
  have hmin : min commands.length (commands.length - 1) = commands.length - 1 := by omega
  rw [hmin] at hpipes
  have hlen0 : commands.length ≠ 0 := by omega
  have hcmds : ∃ c cs, f.cmds = c :: cs := by
    cases hfc : f.cmds with
    | nil =>
      have := inv.cmds
      rw [hfc] at this
      have h2 : (List.range commands.length).length = 0 := by rw [← this]; rfl
      rw [List.length_range] at h2
      omega
    | cons c cs => exact ⟨c, cs, rfl⟩
  obtain ⟨c, cs, hcs⟩ := hcmds
  rw [hf]
  refine ⟨rfl, inv.cmds, hheld, hpipes, ?_, ?_, ?_⟩
  · intro j hj
    exact ⟨inv.writeEnds j (by omega) hj, inv.readEnds j hj⟩
  · unfold ExecutePipelineWithBackground
    simp only [hlen0, if_false, hf, hcs]
    cases background
    · simp only [leave, Bool.false_eq_true, if_false, List.append_assoc, openPipeEnds_append, hheld]
      apply pipeEnds_nil_of_no_pipe
      simp only [List.mem_append, List.mem_cons, List.mem_map, List.mem_singleton,
        List.not_mem_nil, or_false]
      rintro e (rfl | ⟨_, _, rfl⟩ | rfl | ⟨_, _, rfl⟩) <;> simp
    · simp only [leave, if_true, List.append_assoc, openPipeEnds_append, hheld]
      apply pipeEnds_nil_of_no_pipe
      simp [or_imp, forall_and]
  · unfold ExecutePipelineWithBackground
    simp only [hlen0, if_false, hf, hcs]
    cases background <;> simp [leave]

/-- The events of a launch whose loop ran to its end with a started stage are
those of the loop followed by events that make no pipe. -/
theorem launch_events_after_loop (commands : List (List String)) (background : Bool)
    (cmdStr : String) (os : OS) (s : Shell) (f : Frame) (c : Nat × Int) (cs : List (Nat × Int))
    (hlen : commands.length ≠ 0)
    (hf : pipelineLoop commands.length background os 0 commands Frame.empty = (f, true))
    (hcs : f.cmds = c :: cs) :
    ∃ rest : List Event,
      (ExecutePipelineWithBackground commands background cmdStr os s).events = f.events ++ rest ∧
      (∀ e ∈ rest, e.isPipeMade = false) := by
  unfold ExecutePipelineWithBackground
  simp only [hlen, if_false, hf, hcs]
  cases background
  · refine ⟨_, by simp only [leave, Bool.false_eq_true, if_false, List.append_assoc]; rfl, ?_⟩
    simp only [List.mem_append, List.mem_cons, List.mem_map, List.mem_singleton,
      List.not_mem_nil, or_false]
    rintro e (rfl | ⟨_, _, rfl⟩ | rfl | ⟨_, _, rfl⟩) <;> simp
  · refine ⟨_, by simp only [leave, if_true, List.append_assoc]; rfl, ?_⟩
    simp [or_imp, forall_and]

/-- The launch of a pipeline of at least two stages, all of which name a
command, with every call succeeding: in the events of
`ExecutePipelineWithBackground` exactly the pipes of stages `0 .. N-2` are
made, the write end of pipe `j` is closed in the event right after stage `j`,
which got it as stdout, is started, the read end right after stage `j + 1`,
which got it as stdin, is started, and no pipe end is open when the launch
returns. -/
theorem launch_closes_every_pipe_end (commands : List (List String)) (background : Bool)
    (cmdStr : String) (os : OS) (s : Shell)
    (hN : 2 ≤ commands.length)
    (hne : ∀ tokens ∈ commands, tokens ≠ [])
    (hfirst : ∀ tokens, commands.head? = some tokens → (parseRedirection tokens).clean ≠ [])
    (hlast : ∀ tokens, commands.getLast? = some tokens → (parseRedirection tokens).clean ≠ [])
    (hin : ∀ i, i < commands.length → os.openIn i = true)
    (hout : ∀ i, i < commands.length → os.openOut i = true)
    (hpipe : ∀ i, i < commands.length → os.pipe i = true)
    (hstart : ∀ i, i < commands.length → (os.start i).isSome = true) :
    (ExecutePipelineWithBackground commands background cmdStr os s).events.filter
      Event.isPipeMade = (List.range (commands.length - 1)).map Event.pipeMade ∧
    (∀ j, j + 1 < commands.length →
      writeEndClosedAfterStart j
        (ExecutePipelineWithBackground commands background cmdStr os s).events ∧
      readEndClosedAfterNextStart commands.length j
        (ExecutePipelineWithBackground commands background cmdStr os s).events) ∧
    openPipeEnds (ExecutePipelineWithBackground commands background cmdStr os s).events = [] ∧
    (ExecutePipelineWithBackground commands background cmdStr os s).outcome = .returned := by
  obtain ⟨h1, h2, _, h4, h5, h6, h7⟩ := pipelineLoop_closes_every_pipe_end commands background
    cmdStr os s hN hne hfirst hlast hin hout hpipe hstart
  rcases hl : pipelineLoop commands.length background os 0 commands Frame.empty with ⟨f, flag⟩
  rw [hl] at h1 h2 h4 h5
  simp only at h1 h2 h4 h5
  subst h1
  have hcmds : ∃ c cs, f.cmds = c :: cs := by
    cases hfc : f.cmds with
    | nil =>
      rw [hfc] at h2
      have h3 : (List.range commands.length).length = 0 := by rw [← h2]; rfl
      rw [List.length_range] at h3
      omega
    | cons c cs => exact ⟨c, cs, rfl⟩
  obtain ⟨c, cs, hcs⟩ := hcmds
  obtain ⟨rest, hev, hrest⟩ := launch_events_after_loop commands background cmdStr os s f c cs
    (by omega) hl hcs
  refine ⟨?_, ?_, h6, h7⟩
  · rw [hev, List.filter_append, h4]
    have : rest.filter Event.isPipeMade = [] := by
      rw [List.filter_eq_nil_iff]
      intro e he
      simp [hrest e he]
    rw [this, List.append_nil]
  · intro j hj
    rw [hev]
    exact ⟨writeEndClosedAfterStart_append rest (h5 j hj).1,
      readEndClosedAfterNextStart_append rest (h5 j hj).2⟩

/-- **C2 (evaluation of the code).** The pipeline `ls | > o`: two non-empty
stages, every call succeeding. Stage 0 is started with the write end of pipe 0
and that write end is closed; for stage 1 `parseRedirection` leaves no command
and the launch returns (line 151) without closing `prevReader`: the last stage
is never started and the read end of pipe 0 stays open. -/
theorem redirection_only_last_stage_leaves_read_end_open :
    2 ≤ [["ls"], [">", "o"]].length ∧
    (∀ tokens ∈ [["ls"], [">", "o"]], tokens ≠ []) ∧
    (ExecutePipelineWithBackground [["ls"], [">", "o"]] false "ls | > o" OS.allOk
        Shell.init).events =
      [.pipeMade 0, .started 0 ["ls"] .inherited (.file (.pipeWriter 0)) 100,
       .closed (.pipeWriter 0)] ∧
    (ExecutePipelineWithBackground [["ls"], [">", "o"]] false "ls | > o" OS.allOk
        Shell.init).outcome = .returned ∧
    openPipeEnds (ExecutePipelineWithBackground [["ls"], [">", "o"]] false "ls | > o" OS.allOk
        Shell.init).events = [.pipeReader 0] ∧
    openPipeEnds (ExecutePipelineWithBackground [["ls"], [">", "o"]] true "ls | > o &" OS.allOk
        Shell.init).events = [.pipeReader 0] := by
  decide

end MyShell
